import Mathlib

/-!
Verification of the Delivery-Manager spreadsheet store.

Shallow embedding of the Python sources:
  models/customer.py           (`Customer`, validation)
  models/excel_manager.py      (`ExcelManager`: header discovery, column mapping,
                                load/add/update/delete/statistics)
  controllers/main_controller.py (`MainController`: ranked search, cached lists)

Strings are modelled as `List Char` (`Str`).  A spreadsheet cell is
`Option Str`: `none` stands for a pandas `NaN` (empty/absent cell), `some s`
for the cell's text.  A sheet is the pandas DataFrame read with
`header=None`: the list of all rows, each row the list of its cells; rows of
a DataFrame are rectangular, so theorems that need it take the row lengths
explicitly.  Mutating operations return the new sheet together with the
Python boolean result; writing the file back is modelled as the identity on
this in-memory grid.
-/

namespace DeliveryManager

/-- Strings as lists of characters. -/
abbrev Str := List Char

/-- Python whitespace stripped by `str.strip()` (ASCII range). -/
def isPySpace (c : Char) : Bool :=
  c == ' ' || c == '\t' || c == '\n' || c == '\r' || c == '\x0b' || c == '\x0c'

/-- Python `s.strip()`: drop whitespace from both ends. -/
def pyStrip (s : Str) : Str :=
  ((s.dropWhile isPySpace).reverse.dropWhile isPySpace).reverse

/-- One character of `replace('\n', ' ').replace('\r', ' ')`. -/
def replChar (c : Char) : Char :=
  if c == '\n' then ' ' else if c == '\r' then ' ' else c

/-- Python `s.replace('\n', ' ').replace('\r', ' ')` (single-character patterns,
so the two replaces act pointwise). -/
def replNl (s : Str) : Str := s.map replChar

/-- The field normalization used throughout excel_manager.py:
`str(x).strip().replace('\n', ' ').replace('\r', ' ')`. -/
def cleanVal (s : Str) : Str := replNl (pyStrip s)

/-- Python `s.lower()` (ASCII letters; the repository's data is ASCII). -/
def pyLower (s : Str) : Str := s.map Char.toLower

/-- Python substring test `needle in hay` for strings. -/
def containsSub (needle : Str) : Str → Bool
  | [] => needle.isEmpty
  | c :: rest => needle.isPrefixOf (c :: rest) || containsSub needle rest

/-- Customer record (models/customer.py): seven string fields. -/
structure Customer where
  phone : Str
  customer_name : Str
  scheduled_delivery_time : Str
  apartment_no : Str
  address : Str
  suburb : Str
  postal_code : Str
deriving DecidableEq, Repr

/-- Constructor plus `Customer.validate` (customer.py): a `None` phone is
normalized to the empty string; construction raises `ValueError` when the
name, or else the address, is empty or blank after `strip()`. -/
def Customer.make (phone : Option Str) (name sched apt addr suburb pc : Str) :
    Except String Customer :=
  let ph := phone.getD []
  if name.isEmpty || (pyStrip name).isEmpty then
    .error "Customer name is required"
  else if addr.isEmpty || (pyStrip addr).isEmpty then
    .error "Address is required"
  else
    .ok { phone := ph, customer_name := name, scheduled_delivery_time := sched,
          apartment_no := apt, address := addr, suburb := suburb, postal_code := pc }

/-! Spreadsheet representation. -/

/-- A cell: `none` is pandas `NaN`, `some s` a text value. -/
abbrev Cell := Option Str

/-- A row of cells. -/
abbrev Row := List Cell

/-- The whole sheet, as read by `pd.read_excel(..., header=None)`. -/
abbrev Sheet := List Row

/-- The seven fixed logical header names of excel_manager.py. -/
def phoneHeader : Str := "PHONE".data

/-- Header text `CUSTOMER NAME`. -/
def nameHeader : Str := "CUSTOMER NAME".data

/-- Header text for the scheduled-delivery column (embedded newline as in the code). -/
def schHeader : Str := "SCH   \nDEL".data

/-- Header text for the apartment column (embedded newline as in the code). -/
def aptHeader : Str := "APT\nNO".data

/-- Header text `ADDRESS`. -/
def addressHeader : Str := "ADDRESS".data

/-- Header text `SUBURB`. -/
def suburbHeader : Str := "SUBURB".data

/-- Header text `PC` (postal code). -/
def pcHeader : Str := "PC".data

/-- The fixed header list, in the order of `ExcelManager.headers` /
`Customer.to_dict`. -/
def headerNames : List Str :=
  [phoneHeader, nameHeader, schHeader, aptHeader, addressHeader, suburbHeader, pcHeader]

/-- `Customer.to_dict()[name]` — the field stored under a logical header name. -/
def Customer.fieldFor (c : Customer) (name : Str) : Str :=
  if name = phoneHeader then c.phone
  else if name = nameHeader then c.customer_name
  else if name = schHeader then c.scheduled_delivery_time
  else if name = aptHeader then c.apartment_no
  else if name = addressHeader then c.address
  else if name = suburbHeader then c.suburb
  else if name = pcHeader then c.postal_code
  else []

/-- The header-scan test of `load_customers`/`add`/`update`/`delete`:
`any(pd.notna(val) and 'PHONE' in str(val) for val in row)` — note this is a
substring test on the raw cell text, not an equality test. -/
def rowHasPhoneToken (r : Row) : Bool :=
  r.any fun c => match c with
    | some s => containsSub phoneHeader s
    | none => false

/-- Index of the first element satisfying `p` (the scanning loops of
excel_manager.py, which break at the first hit). -/
def findFirstIdx {α : Type} (p : α → Bool) : List α → Option Nat
  | [] => none
  | x :: xs => if p x then some 0 else (findFirstIdx p xs).map (· + 1)

/-- Header-row discovery: `for i in range(min(5, len(df)))`, first row whose
cells contain the `PHONE` token. -/
def findHeaderRow (rows : Sheet) : Option Nat :=
  findFirstIdx rowHasPhoneToken (rows.take 5)

/-- Does a header cell bind a logical name: non-NaN and trimmed text equal to
the name (`str(header).strip() == name`). -/
def cellIsHeader (name : Str) (c : Cell) : Bool :=
  match c with
  | some s => pyStrip s == name
  | none => false

/-- The column index bound to a logical name by the column-mapping loop.  The
loop executes `column_mapping[name] = i` for every matching column, so the
last matching column index wins. -/
def colIndex (name : Str) : Row → Option Nat
  | [] => none
  | c :: cs =>
    match colIndex name cs with
    | some i => some (i + 1)
    | none => if cellIsHeader name c then some 0 else none

/-- `row.iloc[column_mapping[name]] if name in column_mapping else None`. -/
def requiredCell (hdr row : Row) (name : Str) : Cell :=
  match colIndex name hdr with
  | some i => row.getD i none
  | none => none

/-- Optional-field extraction in the load loop: an unmapped column or a NaN
cell both end up as `''`; otherwise the text is cleaned. -/
def optionalField (hdr row : Row) (name : Str) : Str :=
  match requiredCell hdr row name with
  | some s => cleanVal s
  | none => []

/-- One iteration of the `load_customers` data loop: the row is skipped when
phone, customer name, or address is NaN/unmapped or blank after `strip()`;
otherwise the `Customer` is built from the cleaned values. -/
def parseRow (hdr row : Row) : Option Customer :=
  match requiredCell hdr row phoneHeader, requiredCell hdr row nameHeader,
        requiredCell hdr row addressHeader with
  | some p, some n, some a =>
    if (pyStrip p).isEmpty then none
    else if (pyStrip n).isEmpty then none
    else if (pyStrip a).isEmpty then none
    else some
      { phone := cleanVal p
        customer_name := cleanVal n
        scheduled_delivery_time := optionalField hdr row schHeader
        apartment_no := optionalField hdr row aptHeader
        address := cleanVal a
        suburb := optionalField hdr row suburbHeader
        postal_code := optionalField hdr row pcHeader }
  | _, _, _ => none

/-- `ExcelManager.load_customers`: discover the header row (empty result if
absent), then parse every row after it. -/
def load_customers (rows : Sheet) : List Customer :=
  match findHeaderRow rows with
  | none => []
  | some h => (rows.drop (h + 1)).filterMap (parseRow (rows.getD h []))

/-- The cleaned search key of `update_customer`/`delete_customer`:
`str(x).strip().replace('\n', ' ').replace('\r', ' ') if x else ""` applied to
the record's phone, name and address. -/
def searchKey (c : Customer) : Str × Str × Str :=
  (if c.phone.isEmpty then [] else cleanVal c.phone,
   if c.customer_name.isEmpty then [] else cleanVal c.customer_name,
   if c.address.isEmpty then [] else cleanVal c.address)

/-- The row key computed by the update/delete scan: the scan `continue`s when
any of the three key cells is NaN or unmapped, else compares cleaned values. -/
def rowKey (hdr row : Row) : Option (Str × Str × Str) :=
  match requiredCell hdr row phoneHeader, requiredCell hdr row nameHeader,
        requiredCell hdr row addressHeader with
  | some p, some n, some a => some (cleanVal p, cleanVal n, cleanVal a)
  | _, _, _ => none

/-- The matching scan of update/delete: `for index in range(h+1, len(df))`,
breaking at the first row whose key equals the search key; the result is the
global row index. -/
def findMatchIdx (hdr : Row) (key : Str × Str × Str) (rows : Sheet) (h : Nat) :
    Option Nat :=
  (findFirstIdx (fun row => decide (rowKey hdr row = some key)) (rows.drop (h + 1))).map
    (fun d => h + 1 + d)

/-- The cell written at column `i` of the appended/overwritten row: the loop
over `column_mapping.items()` writes `customer_dict[name]` at the column bound
to `name`.  Distinct logical names are bound to distinct columns (their header
texts differ), so scanning `headerNames` for the one bound to `i` is exact. -/
def mappedCell (hdr : Row) (c : Customer) (i : Nat) : Option Str :=
  match headerNames.find? (fun n => decide (colIndex n hdr = some i)) with
  | some n => some (c.fieldFor n)
  | none => none

/-- The row appended by `add_customer`: `new_row = [None] * ncols`, then each
mapped column receives the customer's field. -/
def appendedRow (hdr : Row) (c : Customer) : Row :=
  (List.range hdr.length).map (mappedCell hdr c)

/-- `ExcelManager.add_customer`: re-discover the header (failure if absent),
append the mapped row, rewrite the file. -/
def add_customer (rows : Sheet) (c : Customer) : Bool × Sheet :=
  match findHeaderRow rows with
  | none => (false, rows)
  | some h => (true, rows ++ [appendedRow (rows.getD h []) c])

/-- The in-place overwrite of the matched row in `update_customer`:
`df.iloc[found_row, col_index] = customer_dict[col_name]` for every mapped
column; all other cells of the row keep their values. -/
def overwriteRow (hdr : Row) (c : Customer) (row : Row) : Row :=
  (List.range row.length).map fun i =>
    match mappedCell hdr c i with
    | some v => some v
    | none => row.getD i none

/-- `ExcelManager.update_customer`: find the header, scan for the first row
matching `old`'s cleaned key, overwrite that row's mapped columns with `new`'s
fields; `False` and no write when the header or the row is not found. -/
def update_customer (rows : Sheet) (old new : Customer) : Bool × Sheet :=
  match findHeaderRow rows with
  | none => (false, rows)
  | some h =>
    match findMatchIdx (rows.getD h []) (searchKey old) rows h with
    | none => (false, rows)
    | some j =>
      (true, rows.set j (overwriteRow (rows.getD h []) new (rows.getD j [])))

/-- `ExcelManager.delete_customer`: same scan as update; the matched row is
dropped and the remaining rows re-indexed (`reset_index(drop=True)`). -/
def delete_customer (rows : Sheet) (c : Customer) : Bool × Sheet :=
  match findHeaderRow rows with
  | none => (false, rows)
  | some h =>
    match findMatchIdx (rows.getD h []) (searchKey c) rows h with
    | none => (false, rows)
    | some j => (true, rows.eraseIdx j)

/-- The dictionary returned by `ExcelManager.get_statistics`. -/
structure Stats where
  total_customers : Nat
  customers_with_phone : Nat
  customers_with_address : Nat
  customers_with_suburb : Nat
  customers_with_postal_code : Nat
deriving DecidableEq, Repr

/-- `ExcelManager.get_statistics`: counts over a fresh load; a field counts
when non-blank after `strip()`. -/
def get_statistics (rows : Sheet) : Stats :=
  let cs := load_customers rows
  { total_customers := cs.length
    customers_with_phone := (cs.filter fun c => !(pyStrip c.phone).isEmpty).length
    customers_with_address := (cs.filter fun c => !(pyStrip c.address).isEmpty).length
    customers_with_suburb := (cs.filter fun c => !(pyStrip c.suburb).isEmpty).length
    customers_with_postal_code :=
      (cs.filter fun c => !(pyStrip c.postal_code).isEmpty).length }

/-! Controller (controllers/main_controller.py). -/

/-- Lower-cased customer name, the sort key of
`_sort_customers_alphabetically`. -/
def lowerName (c : Customer) : Str := pyLower c.customer_name

/-- Boolean lexicographic comparison of character lists by code point —
Python's string `<=` restricted to the data handled here. -/
def strLe : Str → Str → Bool
  | [], _ => true
  | _ :: _, [] => false
  | a :: as, b :: bs => if a < b then true else if b < a then false else strLe as bs

/-- Sort order of `_sort_customers_alphabetically`: case-insensitive by name. -/
def nameLe (c d : Customer) : Prop := strLe (lowerName c) (lowerName d) = true

instance : DecidableRel nameLe := fun _ _ =>
  inferInstanceAs (Decidable (_ = true))

/-- `sorted(customers, key=lambda c: c.customer_name.lower())` — Python's sort
is stable, and a stable sort with a total preorder is unique, so insertion
sort computes it. -/
def sortCustomers (cs : List Customer) : List Customer :=
  List.insertionSort nameLe cs

/-- Name-starts-with-query test of `MainController.search_customers`. -/
def isPrefixHit (ql : Str) (c : Customer) : Bool :=
  ql.isPrefixOf (pyLower c.customer_name)

/-- Anywhere-in-name/phone/suburb/postal-code test of
`MainController.search_customers` (tried only when the name test fails). -/
def isSubstrHit (ql : Str) (c : Customer) : Bool :=
  containsSub ql (pyLower c.customer_name) || containsSub ql (pyLower c.phone)
    || containsSub ql (pyLower c.suburb) || containsSub ql (pyLower c.postal_code)

/-- The partition loop of `MainController.search_customers`: first component
collects `exact_matches`, second `partial_matches`, in traversal order. -/
def searchBuckets (ql : Str) : List Customer → List Customer × List Customer
  | [] => ([], [])
  | c :: cs =>
    let (e, p) := searchBuckets ql cs
    if isPrefixHit ql c then (c :: e, p)
    else if isSubstrHit ql c then (e, c :: p)
    else (e, p)

/-- `MainController.search_customers` over the cached list: blank query gives
the name-sorted list; otherwise each bucket is sorted by name and the
prefix-match bucket precedes the substring-match bucket. -/
def search_customers (customers : List Customer) (query : Str) : List Customer :=
  if (pyStrip query).isEmpty then sortCustomers customers
  else
    let ql := pyStrip (pyLower query)
    let (e, p) := searchBuckets ql customers
    sortCustomers e ++ sortCustomers p

/-- The cache patch of `MainController.update_customer`: replace the first
cached record whose phone, name and address fields equal `old`'s, then stop. -/
def patchFirst (old new : Customer) : List Customer → List Customer
  | [] => []
  | c :: cs =>
    if c.phone = old.phone ∧ c.customer_name = old.customer_name ∧
        c.address = old.address then new :: cs
    else c :: patchFirst old new cs

/-- The cache patch of `MainController.delete_customer`:
`if customer in self.customers: self.customers.remove(customer)` — remove the
first equal element, if any. -/
def removeFirst (c : Customer) : List Customer → List Customer
  | [] => []
  | d :: ds => if d = c then ds else d :: removeFirst c ds

/-- `MainController.add_customer`: store add, then in-place cache append and a
re-sort of the filtered view; nothing changes on failure. -/
def ctrl_add (rows : Sheet) (cache filtered : List Customer) (c : Customer) :
    Bool × Sheet × List Customer × List Customer :=
  let res := add_customer rows c
  if res.fst then
    (true, res.snd, cache ++ [c], sortCustomers (cache ++ [c]))
  else (false, res.snd, cache, filtered)

/-- `MainController.update_customer`: store update, then in-place patch of
both cached lists and a re-sort of the filtered view. -/
def ctrl_update (rows : Sheet) (cache filtered : List Customer)
    (old new : Customer) : Bool × Sheet × List Customer × List Customer :=
  let res := update_customer rows old new
  if res.fst then
    (true, res.snd, patchFirst old new cache,
      sortCustomers (patchFirst old new filtered))
  else (false, res.snd, cache, filtered)

/-- `MainController.delete_customer`: store delete, then in-place removal from
both cached lists. -/
def ctrl_delete (rows : Sheet) (cache filtered : List Customer) (c : Customer) :
    Bool × Sheet × List Customer × List Customer :=
  let res := delete_customer rows c
  if res.fst then (true, res.snd, removeFirst c cache, removeFirst c filtered)
  else (false, res.snd, cache, filtered)

/-- Modelled from the spec for the refinement comparison in claim C1 (the
spec's words, not the code): the header row is the first row, among the first
five, containing a cell whose trimmed text equals `PHONE`. -/
def specHeaderRow (rows : Sheet) : Option Nat :=
  findFirstIdx (fun r => r.any (cellIsHeader phoneHeader)) (rows.take 5)

/-! Normalization lemmas. -/

theorem isPySpace_replChar (c : Char) : isPySpace (replChar c) = isPySpace c := by
  by_cases h1 : c = '\n'
  · subst h1; rfl
  · by_cases h2 : c = '\r'
    · subst h2; rfl
    · simp [replChar, h1, h2]

theorem replChar_replChar (c : Char) : replChar (replChar c) = replChar c := by
  by_cases h1 : c = '\n'
  · subst h1; rfl
  · by_cases h2 : c = '\r'
    · subst h2; rfl
    · simp [replChar, h1, h2]

theorem pyStrip_eq_rdropWhile (s : Str) :
    pyStrip s = List.rdropWhile isPySpace (s.dropWhile isPySpace) := rfl

theorem replNl_eq_nil_iff (s : Str) : replNl s = [] ↔ s = [] := by
  simp [replNl]

theorem cleanVal_eq_nil_iff (s : Str) : cleanVal s = [] ↔ pyStrip s = [] := by
  simp [cleanVal, replNl_eq_nil_iff]

theorem pyStrip_cleanVal (s : Str) : pyStrip (cleanVal s) = cleanVal s := by
  rcases hu : cleanVal s with _ | ⟨c, u'⟩
  · rfl
  rw [← hu]
  have hcu : cleanVal s = replNl (List.rdropWhile isPySpace (s.dropWhile isPySpace)) := rfl
  have hne : List.rdropWhile isPySpace (s.dropWhile isPySpace) ≠ [] := by
    intro h
    rw [hcu, h] at hu
    exact (List.cons_ne_nil c u') hu.symm
  have hhead : ∀ d, (List.rdropWhile isPySpace (s.dropWhile isPySpace)).head? = some d →
      isPySpace d = false := by
    intro d hd
    obtain ⟨t, ht⟩ := (List.rdropWhile_prefix isPySpace (s.dropWhile isPySpace))
    have hds : (s.dropWhile isPySpace).head? = some d := by
      rw [← ht]
      rcases hu2 : List.rdropWhile isPySpace (s.dropWhile isPySpace) with _ | ⟨e, u2⟩
      · exact absurd hu2 hne
      · rw [hu2] at hd
        simp only [List.head?_cons, Option.some.injEq] at hd
        simp [hd]
    have := List.head?_dropWhile_not isPySpace s
    rw [hds] at this
    exact this
  rw [pyStrip_eq_rdropWhile]
  have hdw : (cleanVal s).dropWhile isPySpace = cleanVal s := by
    rcases hu2 : List.rdropWhile isPySpace (s.dropWhile isPySpace) with _ | ⟨e, u2⟩
    · exact absurd hu2 hne
    · have : cleanVal s = replChar e :: replNl u2 := by rw [hcu, hu2]; rfl
      rw [this]
      have hpe : isPySpace e = false := hhead e (by rw [hu2]; rfl)
      rw [List.dropWhile_cons_of_neg]
      rw [isPySpace_replChar, hpe]
      exact Bool.false_ne_true
  rw [hdw]
  rw [List.rdropWhile_eq_self_iff]
  intro hl
  have h1 : (cleanVal s).getLast? = some ((cleanVal s).getLast hl) :=
    List.getLast?_eq_getLast _ hl
  have h2 : (cleanVal s).getLast? =
      some (replChar ((List.rdropWhile isPySpace (s.dropWhile isPySpace)).getLast hne)) := by
    rw [hcu, replNl, List.getLast?_map,
      List.getLast?_eq_getLast (List.rdropWhile isPySpace (s.dropWhile isPySpace)) hne]
    rfl
  have h3 : (cleanVal s).getLast hl =
      replChar ((List.rdropWhile isPySpace (s.dropWhile isPySpace)).getLast hne) := by
    rw [h1] at h2
    exact Option.some.inj h2
  rw [h3, isPySpace_replChar]
  have := List.rdropWhile_last_not isPySpace (s.dropWhile isPySpace) hne
  simpa using this

theorem cleanVal_cleanVal (s : Str) : cleanVal (cleanVal s) = cleanVal s := by
  have h1 : cleanVal (cleanVal s) = replNl (cleanVal s) := by
    rw [cleanVal, pyStrip_cleanVal]
  rw [h1, cleanVal, replNl, replNl, List.map_map]
  congr 1
  funext c
  exact replChar_replChar c

theorem pyStrip_cleanVal_ne_nil {s : Str} (h : pyStrip s ≠ []) :
    pyStrip (cleanVal s) ≠ [] := by
  rw [pyStrip_cleanVal]
  intro hc
  exact h ((cleanVal_eq_nil_iff s).mp hc)

theorem searchKey_eq (c : Customer) :
    searchKey c = (cleanVal c.phone, cleanVal c.customer_name, cleanVal c.address) := by
  unfold searchKey
  rcases hp : c.phone with _ | ⟨a, l⟩ <;> rcases hn : c.customer_name with _ | ⟨b, m⟩ <;>
    rcases ha : c.address with _ | ⟨d, r⟩ <;> rfl

/-! Scan-index lemmas. -/

theorem findFirstIdx_eq_none {α : Type} (p : α → Bool) (l : List α) :
    findFirstIdx p l = none ↔ ∀ x ∈ l, p x = false := by
  induction l with
  | nil => simp [findFirstIdx]
  | cons x xs ih =>
    by_cases h : p x
    · simp only [findFirstIdx, if_pos h]
      constructor
      · intro hc; exact absurd hc (by simp)
      · intro hall
        have := hall x (List.mem_cons_self x xs)
        rw [h] at this
        exact absurd this (by simp)
    · rw [findFirstIdx, if_neg h]
      constructor
      · intro hmap y hy
        have hnone : findFirstIdx p xs = none := by
          cases hfi : findFirstIdx p xs with
          | none => rfl
          | some v => rw [hfi] at hmap; simp at hmap
        rcases List.mem_cons.mp hy with rfl | hy'
        · simpa using h
        · exact (ih.mp hnone) y hy'
      · intro hall
        have hnone : findFirstIdx p xs = none :=
          ih.mpr fun y hy => hall y (List.mem_cons_of_mem x hy)
        rw [hnone]
        rfl

theorem findFirstIdx_eq_some_spec {α : Type} (p : α → Bool) (d : α) :
    ∀ (l : List α) (i : Nat), findFirstIdx p l = some i →
      i < l.length ∧ p (l.getD i d) = true ∧ ∀ k, k < i → p (l.getD k d) = false := by
  intro l
  induction l with
  | nil => intro i h; simp [findFirstIdx] at h
  | cons x xs ih =>
    intro i h
    by_cases hx : p x
    · simp only [findFirstIdx, if_pos hx] at h
      obtain rfl : (0 : Nat) = i := Option.some.inj h
      exact ⟨Nat.succ_pos _, by simpa using hx, fun k hk => absurd hk (Nat.not_lt_zero k)⟩
    · rw [findFirstIdx, if_neg hx] at h
      cases hfi : findFirstIdx p xs with
      | none => rw [hfi] at h; simp at h
      | some i' =>
        rw [hfi] at h
        have hi : i' + 1 = i := by simpa using h
        obtain ⟨hlen, hp, hprev⟩ := ih i' hfi
        subst hi
        refine ⟨Nat.succ_lt_succ hlen, by simpa using hp, ?_⟩
        intro k hk
        cases k with
        | zero => simpa using hx
        | succ k' => exact hprev k' (Nat.lt_of_succ_lt_succ hk)

theorem findFirstIdx_eq_some_of {α : Type} (p : α → Bool) (d : α) :
    ∀ (l : List α) (i : Nat), i < l.length → p (l.getD i d) = true →
      (∀ k, k < i → p (l.getD k d) = false) → findFirstIdx p l = some i := by
  intro l
  induction l with
  | nil => intro i h; simp at h
  | cons x xs ih =>
    intro i hlen hp hprev
    cases i with
    | zero =>
      simp only [List.getD_cons_zero] at hp
      simp [findFirstIdx, hp]
    | succ i' =>
      have hx : p x = false := by simpa using hprev 0 (Nat.succ_pos i')
      simp only [findFirstIdx, hx, Bool.false_eq_true, if_false]
      rw [ih i' (Nat.lt_of_succ_lt_succ hlen) (by simpa using hp)
        (fun k hk => by simpa using hprev (k + 1) (Nat.succ_lt_succ hk))]
      rfl

theorem colIndex_spec (name : Str) :
    ∀ (l : Row) (i : Nat), colIndex name l = some i →
      i < l.length ∧ cellIsHeader name (l.getD i none) = true := by
  intro l
  induction l with
  | nil => intro i h; simp [colIndex] at h
  | cons c cs ih =>
    intro i h
    simp only [colIndex] at h
    rcases htail : colIndex name cs with _ | i'
    · rw [htail] at h
      by_cases hc : cellIsHeader name c
      · simp only [if_pos hc] at h
        obtain rfl : (0 : Nat) = i := Option.some.inj h
        exact ⟨Nat.succ_pos _, by simpa using hc⟩
      · simp [if_neg hc] at h
    · rw [htail] at h
      obtain rfl : i' + 1 = i := Option.some.inj h
      obtain ⟨hlen, hcell⟩ := ih i' htail
      exact ⟨Nat.succ_lt_succ hlen, by simpa using hcell⟩

theorem cellIsHeader_inj {n₁ n₂ : Str} {c : Cell}
    (h₁ : cellIsHeader n₁ c = true) (h₂ : cellIsHeader n₂ c = true) : n₁ = n₂ := by
  rcases c with _ | s
  · simp [cellIsHeader] at h₁
  · simp only [cellIsHeader, beq_iff_eq] at h₁ h₂
    rw [← h₁, ← h₂]

theorem colIndex_inj {n₁ n₂ : Str} {hdr : Row} {i : Nat}
    (h₁ : colIndex n₁ hdr = some i) (h₂ : colIndex n₂ hdr = some i) : n₁ = n₂ :=
  cellIsHeader_inj (colIndex_spec n₁ hdr i h₁).2 (colIndex_spec n₂ hdr i h₂).2

theorem getD_take_of_lt {α : Type} (l : List α) (d : α) {n k : Nat} (h : k < n) :
    (l.take n).getD k d = l.getD k d := by
  simp only [List.getD_eq_getElem?_getD]
  rw [List.getElem?_take_of_lt h]

theorem findHeaderRow_spec (rows : Sheet) (h : Nat)
    (hh : findHeaderRow rows = some h) :
    h < 5 ∧ h < rows.length ∧ rowHasPhoneToken (rows.getD h []) = true ∧
      ∀ k, k < h → rowHasPhoneToken (rows.getD k []) = false := by
  obtain ⟨hlen, hp, hprev⟩ := findFirstIdx_eq_some_spec rowHasPhoneToken [] _ h hh
  rw [List.length_take] at hlen
  have h5 : h < 5 := lt_of_lt_of_le hlen (min_le_left _ _)
  have hlt : h < rows.length := lt_of_lt_of_le hlen (min_le_right _ _)
  refine ⟨h5, hlt, ?_, ?_⟩
  · rwa [getD_take_of_lt rows [] h5] at hp
  · intro k hk
    have := hprev k hk
    rwa [getD_take_of_lt rows [] (lt_trans hk h5)] at this

theorem findHeaderRow_stable {rows rows' : Sheet} {h : Nat}
    (hh : findHeaderRow rows = some h) (hlen : h < rows'.length)
    (hsame : ∀ k, k ≤ h → rows'.getD k [] = rows.getD k []) :
    findHeaderRow rows' = some h := by
  obtain ⟨h5, _, hp, hprev⟩ := findHeaderRow_spec rows h hh
  apply findFirstIdx_eq_some_of rowHasPhoneToken [] (rows'.take 5) h
  · rw [List.length_take]
    exact lt_min h5 hlen
  · rw [getD_take_of_lt rows' [] h5, hsame h (le_refl h)]
    exact hp
  · intro k hk
    rw [getD_take_of_lt rows' [] (lt_trans hk h5), hsame k (le_of_lt hk)]
    exact hprev k hk

/-! Match-scan lemmas. -/

theorem getD_drop (rows : Sheet) (i d : Nat) :
    (rows.drop i).getD d [] = rows.getD (i + d) [] := by
  simp [List.getD_eq_getElem?_getD, List.getElem?_drop]

theorem findMatchIdx_eq_none_iff (hdr : Row) (key : Str × Str × Str)
    (rows : Sheet) (h : Nat) :
    findMatchIdx hdr key rows h = none ↔
      ∀ j, j < rows.length → h < j → rowKey hdr (rows.getD j []) ≠ some key := by
  unfold findMatchIdx
  rw [Option.map_eq_none']
  rw [findFirstIdx_eq_none]
  constructor
  · intro hall j hj hhj hkey
    have hd : h + 1 + (j - (h + 1)) = j := by omega
    have hmem : rows.getD j [] ∈ rows.drop (h + 1) := by
      have : (rows.drop (h + 1))[j - (h + 1)]? = rows[j]? := by
        rw [List.getElem?_drop, hd]
      have hsome : rows[j]? = some (rows.getD j []) := by
        rw [List.getElem?_eq_getElem hj]
        simp [List.getD_eq_getElem?_getD, List.getElem?_eq_getElem hj]
      exact List.getElem?_mem (this.trans hsome)
    have := hall _ hmem
    rw [decide_eq_false_iff_not] at this
    exact this hkey
  · intro hall row hrow
    obtain ⟨d, hd⟩ := List.getElem?_of_mem hrow
    rw [List.getElem?_drop] at hd
    have hlt : h + 1 + d < rows.length := (List.getElem?_eq_some.mp hd).1
    have hrowd : rows.getD (h + 1 + d) [] = row := by
      simp [List.getD_eq_getElem?_getD, hd]
    rw [decide_eq_false_iff_not]
    intro hkey
    exact hall (h + 1 + d) hlt (by omega) (by rw [hrowd]; exact hkey)

theorem findMatchIdx_spec (hdr : Row) (key : Str × Str × Str) (rows : Sheet)
    (h j : Nat) (hj : findMatchIdx hdr key rows h = some j) :
    h < j ∧ j < rows.length ∧ rowKey hdr (rows.getD j []) = some key ∧
      ∀ k, k < rows.length → h < k → k < j → rowKey hdr (rows.getD k []) ≠ some key := by
  unfold findMatchIdx at hj
  cases hfi : findFirstIdx (fun row => decide (rowKey hdr row = some key))
      (rows.drop (h + 1)) with
  | none => rw [hfi] at hj; simp at hj
  | some d =>
    rw [hfi] at hj
    have hjd : h + 1 + d = j := by simpa using hj
    obtain ⟨hlen, hp, hprev⟩ := findFirstIdx_eq_some_spec _ [] _ d hfi
    rw [List.length_drop] at hlen
    rw [getD_drop, decide_eq_true_eq] at hp
    refine ⟨by omega, by omega, by rw [← hjd]; exact hp, ?_⟩
    intro k _ hhk hkj hkey
    have he := hprev (k - (h + 1)) (by omega)
    rw [getD_drop] at he
    have : h + 1 + (k - (h + 1)) = k := by omega
    rw [this, decide_eq_false_iff_not] at he
    exact he hkey

theorem findMatchIdx_eq_some_of (hdr : Row) (key : Str × Str × Str) (rows : Sheet)
    (h j : Nat) (hhj : h < j) (hjl : j < rows.length)
    (hkey : rowKey hdr (rows.getD j []) = some key)
    (hprev : ∀ k, k < rows.length → h < k → k < j → rowKey hdr (rows.getD k []) ≠ some key) :
    findMatchIdx hdr key rows h = some j := by
  unfold findMatchIdx
  have hfi : findFirstIdx (fun row => decide (rowKey hdr row = some key))
      (rows.drop (h + 1)) = some (j - (h + 1)) := by
    apply findFirstIdx_eq_some_of _ []
    · rw [List.length_drop]; omega
    · rw [getD_drop, decide_eq_true_eq]
      have : h + 1 + (j - (h + 1)) = j := by omega
      rw [this]
      exact hkey
    · intro e he
      rw [getD_drop, decide_eq_false_iff_not]
      exact hprev (h + 1 + e) (by omega) (by omega) (by omega)
  rw [hfi]
  have harith : h + 1 + (j - (h + 1)) = j := by omega
  simp [harith]

/-! Mapped-cell lemmas. -/

theorem getD_map_range {β : Type} (f : Nat → β) (d : β) {m i : Nat} (hi : i < m) :
    ((List.range m).map f).getD i d = f i := by
  simp [List.getD_eq_getElem?_getD, List.getElem?_range, hi]

theorem mappedCell_eq_some {hdr : Row} {n : Str} {i : Nat} (c : Customer)
    (hn : n ∈ headerNames) (hi : colIndex n hdr = some i) :
    mappedCell hdr c i = some (c.fieldFor n) := by
  unfold mappedCell
  have hex : ∃ m ∈ headerNames, decide (colIndex m hdr = some i) = true :=
    ⟨n, hn, by simp [hi]⟩
  cases hfind : headerNames.find? (fun m => decide (colIndex m hdr = some i)) with
  | none =>
    rw [List.find?_eq_none] at hfind
    obtain ⟨m, hm, hpm⟩ := hex
    exact absurd hpm (by simpa using hfind m hm)
  | some m =>
    have hpm := List.find?_some hfind
    rw [decide_eq_true_eq] at hpm
    have : m = n := colIndex_inj hpm hi
    rw [this]

theorem mappedCell_eq_none {hdr : Row} {i : Nat} (c : Customer)
    (hnone : ∀ n ∈ headerNames, colIndex n hdr ≠ some i) :
    mappedCell hdr c i = none := by
  unfold mappedCell
  rw [List.find?_eq_none.mpr]
  intro n hn
  simpa using hnone n hn

theorem appendedRow_length (hdr : Row) (c : Customer) :
    (appendedRow hdr c).length = hdr.length := by
  simp [appendedRow]

theorem appendedRow_getD_mapped {hdr : Row} {n : Str} {i : Nat} (c : Customer)
    (hn : n ∈ headerNames) (hi : colIndex n hdr = some i) :
    (appendedRow hdr c).getD i none = some (c.fieldFor n) := by
  have hlt : i < hdr.length := (colIndex_spec n hdr i hi).1
  rw [appendedRow, getD_map_range _ _ hlt]
  exact mappedCell_eq_some c hn hi

theorem overwriteRow_length (hdr : Row) (c : Customer) (row : Row) :
    (overwriteRow hdr c row).length = row.length := by
  simp [overwriteRow]

theorem overwriteRow_getD_mapped {hdr : Row} {n : Str} {i : Nat} (c : Customer)
    (row : Row) (hn : n ∈ headerNames) (hi : colIndex n hdr = some i)
    (hlt : i < row.length) :
    (overwriteRow hdr c row).getD i none = some (c.fieldFor n) := by
  rw [overwriteRow, getD_map_range _ _ hlt, mappedCell_eq_some c hn hi]

theorem getD_cell_eq_none_of_le {l : Row} {i : Nat} (h : l.length ≤ i) :
    l.getD i none = none := by
  simp [List.getD_eq_getElem?_getD, List.getElem?_eq_none h]

theorem overwriteRow_getD_unmapped {hdr : Row} {i : Nat} (c : Customer) (row : Row)
    (hnone : ∀ n ∈ headerNames, colIndex n hdr ≠ some i) :
    (overwriteRow hdr c row).getD i none = row.getD i none := by
  by_cases hlt : i < row.length
  · rw [overwriteRow, getD_map_range _ _ hlt, mappedCell_eq_none c hnone]
  · have h1 : (overwriteRow hdr c row).length ≤ i := by
      rw [overwriteRow_length]; omega
    rw [getD_cell_eq_none_of_le h1, getD_cell_eq_none_of_le (by omega)]

/-! Field-projection lemmas. -/

theorem fieldFor_phone (c : Customer) : c.fieldFor phoneHeader = c.phone := by
  unfold Customer.fieldFor
  rw [if_pos rfl]

theorem fieldFor_name (c : Customer) : c.fieldFor nameHeader = c.customer_name := by
  unfold Customer.fieldFor
  rw [if_neg (by decide), if_pos rfl]

theorem fieldFor_address (c : Customer) : c.fieldFor addressHeader = c.address := by
  unfold Customer.fieldFor
  rw [if_neg (by decide), if_neg (by decide), if_neg (by decide), if_neg (by decide),
    if_pos rfl]

/-! Row-parsing lemmas. -/

theorem parseRow_isSome_iff (hdr row : Row) :
    (parseRow hdr row).isSome = true ↔
      (∃ p, requiredCell hdr row phoneHeader = some p ∧ cleanVal p ≠ []) ∧
      (∃ n, requiredCell hdr row nameHeader = some n ∧ cleanVal n ≠ []) ∧
      (∃ a, requiredCell hdr row addressHeader = some a ∧ cleanVal a ≠ []) := by
  unfold parseRow
  rcases hp : requiredCell hdr row phoneHeader with _ | p <;>
    rcases hn : requiredCell hdr row nameHeader with _ | n <;>
      rcases ha : requiredCell hdr row addressHeader with _ | a <;>
        simp only [Option.isSome_none, Option.isSome_some]
  · constructor
    · intro h; exact absurd h (by simp)
    · rintro ⟨⟨p, hp', _⟩, _⟩; cases hp'
  · constructor
    · intro h; exact absurd h (by simp)
    · rintro ⟨⟨p, hp', _⟩, _⟩; cases hp'
  · constructor
    · intro h; exact absurd h (by simp)
    · rintro ⟨⟨p, hp', _⟩, _⟩; cases hp'
  · constructor
    · intro h; exact absurd h (by simp)
    · rintro ⟨⟨p, hp', _⟩, _⟩; cases hp'
  · constructor
    · intro h; exact absurd h (by simp)
    · rintro ⟨_, _, ⟨a, ha', _⟩⟩; cases ha'
  · constructor
    · intro h; exact absurd h (by simp)
    · rintro ⟨_, ⟨n, hn', _⟩, _⟩; cases hn'
  · constructor
    · intro h; exact absurd h (by simp)
    · rintro ⟨_, _, ⟨a, ha', _⟩⟩; cases ha'
  · by_cases h1 : (pyStrip p).isEmpty
    · rw [if_pos h1]
      simp only [Option.isSome_none]
      constructor
      · intro h; exact absurd h (by simp)
      · rintro ⟨⟨p', hp', hpc⟩, _⟩
        obtain rfl : p = p' := Option.some.inj hp'
        rw [List.isEmpty_iff] at h1
        exact absurd ((cleanVal_eq_nil_iff p).mpr h1) hpc
    · rw [if_neg h1]
      by_cases h2 : (pyStrip n).isEmpty
      · rw [if_pos h2]
        simp only [Option.isSome_none]
        constructor
        · intro h; exact absurd h (by simp)
        · rintro ⟨_, ⟨n', hn', hnc⟩, _⟩
          obtain rfl : n = n' := Option.some.inj hn'
          rw [List.isEmpty_iff] at h2
          exact absurd ((cleanVal_eq_nil_iff n).mpr h2) hnc
      · rw [if_neg h2]
        by_cases h3 : (pyStrip a).isEmpty
        · rw [if_pos h3]
          simp only [Option.isSome_none]
          constructor
          · intro h; exact absurd h (by simp)
          · rintro ⟨_, _, ⟨a', ha', hac⟩⟩
            obtain rfl : a = a' := Option.some.inj ha'
            rw [List.isEmpty_iff] at h3
            exact absurd ((cleanVal_eq_nil_iff a).mpr h3) hac
        · rw [if_neg h3]
          simp only [Option.isSome_some, true_iff]
          rw [List.isEmpty_iff] at h1 h2 h3
          refine ⟨⟨p, rfl, ?_⟩, ⟨n, rfl, ?_⟩, ⟨a, rfl, ?_⟩⟩ <;>
            rw [Ne, cleanVal_eq_nil_iff] <;> assumption

theorem parseRow_some_props {hdr row : Row} {c : Customer}
    (h : parseRow hdr row = some c) :
    rowKey hdr row = some (c.phone, c.customer_name, c.address) ∧
      searchKey c = (c.phone, c.customer_name, c.address) ∧
      pyStrip c.phone ≠ [] ∧ pyStrip c.customer_name ≠ [] ∧ pyStrip c.address ≠ [] ∧
      c.scheduled_delivery_time = optionalField hdr row schHeader ∧
      c.apartment_no = optionalField hdr row aptHeader ∧
      c.suburb = optionalField hdr row suburbHeader ∧
      c.postal_code = optionalField hdr row pcHeader := by
  unfold parseRow at h
  rcases hp : requiredCell hdr row phoneHeader with _ | p <;>
    rcases hn : requiredCell hdr row nameHeader with _ | n <;>
      rcases ha : requiredCell hdr row addressHeader with _ | a <;>
        rw [hp, hn, ha] at h
  case none.none.none => exact Option.noConfusion h
  case none.none.some => exact Option.noConfusion h
  case none.some.none => exact Option.noConfusion h
  case none.some.some => exact Option.noConfusion h
  case some.none.none => exact Option.noConfusion h
  case some.none.some => exact Option.noConfusion h
  case some.some.none => exact Option.noConfusion h
  replace h : (if (pyStrip p).isEmpty then (none : Option Customer)
      else if (pyStrip n).isEmpty then none
      else if (pyStrip a).isEmpty then none
      else some
        { phone := cleanVal p
          customer_name := cleanVal n
          scheduled_delivery_time := optionalField hdr row schHeader
          apartment_no := optionalField hdr row aptHeader
          address := cleanVal a
          suburb := optionalField hdr row suburbHeader
          postal_code := optionalField hdr row pcHeader }) = some c := h
  by_cases h1 : (pyStrip p).isEmpty
  · rw [if_pos h1] at h; exact absurd h (by simp)
  rw [if_neg h1] at h
  by_cases h2 : (pyStrip n).isEmpty
  · rw [if_pos h2] at h; exact absurd h (by simp)
  rw [if_neg h2] at h
  by_cases h3 : (pyStrip a).isEmpty
  · rw [if_pos h3] at h; exact absurd h (by simp)
  rw [if_neg h3] at h
  have hc := Option.some.inj h
  subst hc
  rw [List.isEmpty_iff] at h1 h2 h3
  refine ⟨?_, ?_, ?_, ?_, ?_, rfl, rfl, rfl, rfl⟩
  · unfold rowKey
    rw [hp, hn, ha]
  · rw [searchKey_eq]
    simp only [cleanVal_cleanVal]
  · exact fun hc => h1 ((cleanVal_eq_nil_iff p).mp (pyStrip_cleanVal p ▸ hc))
  · exact fun hc => h2 ((cleanVal_eq_nil_iff n).mp (pyStrip_cleanVal n ▸ hc))
  · exact fun hc => h3 ((cleanVal_eq_nil_iff a).mp (pyStrip_cleanVal a ▸ hc))

theorem load_customers_eq {rows : Sheet} {h : Nat} (hh : findHeaderRow rows = some h) :
    load_customers rows = (rows.drop (h + 1)).filterMap (parseRow (rows.getD h [])) := by
  unfold load_customers
  rw [hh]

/-- Did a fallible operation succeed (no exception raised)? -/
def isOkRes {ε α : Type} : Except ε α → Bool
  | .ok _ => true
  | .error _ => false

/-! Concrete sample data used by counterexamples and witnesses. -/

/-- A well-formed header row binding phone, name and address columns. -/
def wHdr : Row := [some "PHONE".data, some "CUSTOMER NAME".data, some "ADDRESS".data]

/-- A complete data row. -/
def wRow1 : Row := [some "0412".data, some "Bob Jones".data, some "1 Main St".data]

/-- A minimal well-formed sheet: header plus one data row. -/
def wRows : Sheet := [wHdr, wRow1]

/-- The customer stored in `wRow1`. -/
def wCust : Customer :=
  ⟨"0412".data, "Bob Jones".data, [], [], "1 Main St".data, [], []⟩

/-- A valid customer whose phone is empty. -/
def wEmptyPhone : Customer := ⟨[], "Bob".data, [], [], "1 Main St".data, [], []⟩

/-- A customer matching no row of the sample sheets. -/
def wAbsent : Customer := ⟨"0999".data, "Zoe Hart".data, [], [], "9 End Rd".data, [], []⟩

/-- A sheet whose first row contains `PHONE` only as a proper substring of a
cell, while the exact header row sits below it. -/
def cexHeaderRows : Sheet :=
  [[some "PHONE NUMBER".data, none, none], wHdr, wRow1]

/-! Claim C1: header discovery. -/

/-- C1 (counterexample): the code's header scan tests `'PHONE' in str(val)`
(substring), not trimmed equality.  On a sheet whose row 0 has a cell
`PHONE NUMBER` and whose row 1 is the exact header, the code selects row 0
while the claim's trimmed-equality rule selects row 1. -/
theorem c1_header_substring_cex :
    findHeaderRow cexHeaderRows = some 0 ∧ specHeaderRow cexHeaderRows = some 1 ∧
      findHeaderRow cexHeaderRows ≠ specHeaderRow cexHeaderRows := by
  decide

/-- C1 (amended): header discovery scans at most the first 5 rows and selects
the index of the first row containing a non-NaN cell whose text contains
`PHONE` as a substring; if no such row exists among the first 5, the header is
reported as not found and `load()` returns the empty sequence. -/
theorem c1_header_discovery (rows : Sheet) :
    (∀ i, findHeaderRow rows = some i →
        i < 5 ∧ i < rows.length ∧ rowHasPhoneToken (rows.getD i []) = true ∧
        ∀ k, k < i → rowHasPhoneToken (rows.getD k []) = false) ∧
      (findHeaderRow rows = none →
        (∀ k, k < min 5 rows.length → rowHasPhoneToken (rows.getD k []) = false) ∧
        load_customers rows = []) := by
  constructor
  · intro i hi
    exact findHeaderRow_spec rows i hi
  · intro hn
    constructor
    · intro k hk
      have hall := (findFirstIdx_eq_none rowHasPhoneToken (rows.take 5)).mp hn
      have hk5 : k < 5 := lt_of_lt_of_le hk (min_le_left _ _)
      have hkl : k < rows.length := lt_of_lt_of_le hk (min_le_right _ _)
      have hmem : rows.getD k [] ∈ rows.take 5 := by
        apply List.getElem?_mem
        rw [List.getElem?_take_of_lt hk5, List.getElem?_eq_getElem hkl]
        simp [List.getD_eq_getElem?_getD, List.getElem?_eq_getElem hkl]
      exact hall _ hmem
    · unfold load_customers
      rw [hn]

/-- Witness for `c1_header_discovery` at the sample sheet. -/
theorem c1_header_discovery_witness :
    0 < 5 ∧ rowHasPhoneToken (wRows.getD 0 []) = true :=
  ⟨((c1_header_discovery wRows).1 0 (by decide)).1,
   ((c1_header_discovery wRows).1 0 (by decide)).2.2.1⟩

/-! Claim C8: record validation. -/

/-- C8: constructing a record fails iff the name is blank after trimming or
the address is blank after trimming; a blank or unset phone never fails, and
an unset phone is normalized to the empty string. -/
theorem c8_validate (phone : Option Str) (name sched apt addr suburb pc : Str) :
    (isOkRes (Customer.make phone name sched apt addr suburb pc) = false ↔
        pyStrip name = [] ∨ pyStrip addr = []) ∧
      ∀ c, Customer.make phone name sched apt addr suburb pc = .ok c →
        c.phone = phone.getD [] ∧ c.customer_name = name ∧ c.address = addr := by
  have hname : (name.isEmpty || (pyStrip name).isEmpty) = true ↔ pyStrip name = [] := by
    rw [Bool.or_eq_true, List.isEmpty_iff, List.isEmpty_iff]
    constructor
    · rintro (rfl | h)
      · rfl
      · exact h
    · exact Or.inr
  have haddr : (addr.isEmpty || (pyStrip addr).isEmpty) = true ↔ pyStrip addr = [] := by
    rw [Bool.or_eq_true, List.isEmpty_iff, List.isEmpty_iff]
    constructor
    · rintro (rfl | h)
      · rfl
      · exact h
    · exact Or.inr
  unfold Customer.make
  by_cases h1 : (name.isEmpty || (pyStrip name).isEmpty) = true
  · rw [if_pos h1]
    refine ⟨?_, ?_⟩
    · simp only [isOkRes]
      exact iff_of_true trivial (Or.inl (hname.mp h1))
    · intro c hc
      exact Except.noConfusion hc
  · rw [if_neg h1]
    by_cases h2 : (addr.isEmpty || (pyStrip addr).isEmpty) = true
    · rw [if_pos h2]
      refine ⟨?_, ?_⟩
      · simp only [isOkRes]
        exact iff_of_true trivial (Or.inr (haddr.mp h2))
      · intro c hc
        exact Except.noConfusion hc
    · rw [if_neg h2]
      refine ⟨?_, ?_⟩
      · simp only [isOkRes]
        constructor
        · intro hfalse
          exact absurd hfalse (by simp)
        · rintro (hn | ha)
          · exact absurd (hname.mpr hn) h1
          · exact absurd (haddr.mpr ha) h2
      · intro c hc
        have := Except.ok.inj hc
        rw [← this]
        exact ⟨rfl, rfl, rfl⟩

/-- Witness for `c8_validate`: a record built with an unset phone. -/
theorem c8_validate_witness :
    wEmptyPhone.phone = (none : Option Str).getD [] ∧
      wEmptyPhone.customer_name = "Bob".data ∧ wEmptyPhone.address = "1 Main St".data :=
  (c8_validate none "Bob".data [] [] "1 Main St".data [] []).2 wEmptyPhone rfl

/-! Claim C10: statistics counts. -/

theorem mem_load_props {rows : Sheet} {c : Customer} (hc : c ∈ load_customers rows) :
    pyStrip c.phone ≠ [] ∧ pyStrip c.customer_name ≠ [] ∧ pyStrip c.address ≠ [] := by
  unfold load_customers at hc
  cases hh : findHeaderRow rows with
  | none => rw [hh] at hc; simp at hc
  | some h =>
    rw [hh, List.mem_filterMap] at hc
    obtain ⟨row, _, hrow⟩ := hc
    have hp := parseRow_some_props hrow
    exact ⟨hp.2.2.1, hp.2.2.2.1, hp.2.2.2.2.1⟩

/-- C10: every loaded record has a non-blank phone and a non-blank address, so
the phone and address counters of `get_statistics` always equal the total. -/
theorem c10_statistics_full_counts (rows : Sheet) :
    (get_statistics rows).customers_with_phone = (get_statistics rows).total_customers ∧
      (get_statistics rows).customers_with_address = (get_statistics rows).total_customers := by
  constructor
  · show (List.filter _ (load_customers rows)).length = (load_customers rows).length
    rw [List.filter_eq_self.mpr]
    intro c hc
    have := (mem_load_props hc).1
    simpa [List.isEmpty_iff] using this
  · show (List.filter _ (load_customers rows)).length = (load_customers rows).length
    rw [List.filter_eq_self.mpr]
    intro c hc
    have := (mem_load_props hc).2.2
    simpa [List.isEmpty_iff] using this

/-! Claim C7: the load row filter. -/

/-- C7: a data row yields a record iff phone, name and address are all present
(non-NaN, mapped) and non-blank after normalization; a row missing only
suburb, postal code, apartment or scheduled-delivery-time is not skipped, and
the missing field defaults to the empty string. -/
theorem c7_load_row_filter (hdr row : Row) :
    ((parseRow hdr row).isSome = true ↔
        (∃ p, requiredCell hdr row phoneHeader = some p ∧ cleanVal p ≠ []) ∧
        (∃ n, requiredCell hdr row nameHeader = some n ∧ cleanVal n ≠ []) ∧
        (∃ a, requiredCell hdr row addressHeader = some a ∧ cleanVal a ≠ [])) ∧
      ∀ c, parseRow hdr row = some c →
        (requiredCell hdr row suburbHeader = none → c.suburb = []) ∧
        (requiredCell hdr row pcHeader = none → c.postal_code = []) ∧
        (requiredCell hdr row aptHeader = none → c.apartment_no = []) ∧
        (requiredCell hdr row schHeader = none → c.scheduled_delivery_time = []) := by
  refine ⟨parseRow_isSome_iff hdr row, ?_⟩
  intro c hc
  have hp := parseRow_some_props hc
  refine ⟨?_, ?_, ?_, ?_⟩ <;> intro hmiss
  · rw [hp.2.2.2.2.2.2.2.1]
    unfold optionalField
    rw [hmiss]
  · rw [hp.2.2.2.2.2.2.2.2]
    unfold optionalField
    rw [hmiss]
  · rw [hp.2.2.2.2.2.2.1]
    unfold optionalField
    rw [hmiss]
  · rw [hp.2.2.2.2.2.1]
    unfold optionalField
    rw [hmiss]

/-- Witness for `c7_load_row_filter`: the sample sheet has no suburb or postal
columns, and the parsed record defaults both to the empty string. -/
theorem c7_load_row_filter_witness : wCust.suburb = [] ∧ wCust.postal_code = [] :=
  ⟨((c7_load_row_filter wHdr wRow1).2 wCust (by decide)).1 (by decide),
   ((c7_load_row_filter wHdr wRow1).2 wCust (by decide)).2.1 (by decide)⟩

/-! Claim C2: add followed by load. -/

theorem phoneHeader_mem : phoneHeader ∈ headerNames := List.Mem.head _

theorem nameHeader_mem : nameHeader ∈ headerNames :=
  List.Mem.tail _ (List.Mem.head _)

theorem addressHeader_mem : addressHeader ∈ headerNames :=
  List.Mem.tail _ (List.Mem.tail _ (List.Mem.tail _ (List.Mem.tail _ (List.Mem.head _))))

theorem getD_append_lt {l l' : Sheet} {k : Nat} (hk : k < l.length) :
    (l ++ l').getD k [] = l.getD k [] := by
  simp [List.getD_eq_getElem?_getD, List.getElem?_append_left hk]

theorem requiredCell_appended {hdr : Row} (r : Customer) {name : Str} {i : Nat}
    (hmem : name ∈ headerNames) (hi : colIndex name hdr = some i) :
    requiredCell hdr (appendedRow hdr r) name = some (r.fieldFor name) := by
  unfold requiredCell
  rw [hi]
  exact appendedRow_getD_mapped r hmem hi

/-- C2 (counterexample): a valid record with an empty phone is accepted by
`add` (result True), but the subsequent `load` skips its row, so the loaded
sequence (here exactly the prior single record) contains no record whose
normalized key equals the added record's. -/
theorem c2_add_empty_phone_cex :
    (add_customer wRows wEmptyPhone).fst = true ∧
      load_customers (add_customer wRows wEmptyPhone).snd = [wCust] ∧
      searchKey wCust ≠ searchKey wEmptyPhone := by
  decide

/-- C2 (amended): for every record whose cleaned phone, name and address are
all non-blank, added to a sheet whose discovered header row maps the phone,
name and address columns, `add` returns True and the immediately subsequent
`load` contains a record whose normalized (phone, name, address) triple
equals the record's normalized triple. -/
theorem c2_add_then_load (rows : Sheet) (r : Customer) (h : Nat)
    (hh : findHeaderRow rows = some h)
    (hpc : (colIndex phoneHeader (rows.getD h [])).isSome = true)
    (hnc : (colIndex nameHeader (rows.getD h [])).isSome = true)
    (hac : (colIndex addressHeader (rows.getD h [])).isSome = true)
    (hpb : pyStrip r.phone ≠ []) (hnb : pyStrip r.customer_name ≠ [])
    (hab : pyStrip r.address ≠ []) :
    (add_customer rows r).fst = true ∧
      ∃ c ∈ load_customers (add_customer rows r).snd, searchKey c = searchKey r := by
  have hlen : h < rows.length := (findHeaderRow_spec rows h hh).2.1
  obtain ⟨ip, hip⟩ := Option.isSome_iff_exists.mp hpc
  obtain ⟨iN, hiN⟩ := Option.isSome_iff_exists.mp hnc
  obtain ⟨iA, hiA⟩ := Option.isSome_iff_exists.mp hac
  set hdr := rows.getD h [] with hhdr
  set newRow := appendedRow hdr r with hnew
  have hsnd : add_customer rows r = (true, rows ++ [newRow]) := by
    unfold add_customer
    rw [hh]
  have hstable : findHeaderRow (rows ++ [newRow]) = some h := by
    apply findHeaderRow_stable hh
    · rw [List.length_append]
      omega
    · intro k hk
      exact getD_append_lt (by omega)
  have hhdr2 : (rows ++ [newRow]).getD h [] = hdr := getD_append_lt hlen
  have hload : load_customers (rows ++ [newRow]) =
      (rows.drop (h + 1)).filterMap (parseRow hdr) ++
        (parseRow hdr newRow).toList := by
    rw [load_customers_eq hstable, hhdr2,
      List.drop_append_of_le_length (by omega), List.filterMap_append]
    congr 1
  have hcellP : requiredCell hdr newRow phoneHeader = some r.phone := by
    rw [hnew, requiredCell_appended r phoneHeader_mem hip, fieldFor_phone]
  have hcellN : requiredCell hdr newRow nameHeader = some r.customer_name := by
    rw [hnew, requiredCell_appended r nameHeader_mem hiN, fieldFor_name]
  have hcellA : requiredCell hdr newRow addressHeader = some r.address := by
    rw [hnew, requiredCell_appended r addressHeader_mem hiA, fieldFor_address]
  have hsome : (parseRow hdr newRow).isSome = true := by
    rw [parseRow_isSome_iff]
    refine ⟨⟨r.phone, hcellP, ?_⟩, ⟨r.customer_name, hcellN, ?_⟩,
      ⟨r.address, hcellA, ?_⟩⟩ <;> rw [Ne, cleanVal_eq_nil_iff] <;> assumption
  obtain ⟨c, hc⟩ := Option.isSome_iff_exists.mp hsome
  have hprops := parseRow_some_props hc
  have hkey : rowKey hdr newRow =
      some (cleanVal r.phone, cleanVal r.customer_name, cleanVal r.address) := by
    unfold rowKey
    rw [hcellP, hcellN, hcellA]
  have htriple : (c.phone, c.customer_name, c.address) =
      (cleanVal r.phone, cleanVal r.customer_name, cleanVal r.address) :=
    Option.some.inj (hprops.1.symm.trans hkey)
  refine ⟨by rw [hsnd], ⟨c, ?_, ?_⟩⟩
  · rw [hsnd]
    simp only
    rw [hload]
    apply List.mem_append_right
    rw [hc]
    exact List.mem_singleton.mpr rfl
  · rw [hprops.2.1, htriple, searchKey_eq r]

/-- Witness for `c2_add_then_load` at the sample sheet and record. -/
theorem c2_add_then_load_witness : (add_customer wRows wCust).fst = true :=
  (c2_add_then_load wRows wCust 0 (by decide) (by decide) (by decide) (by decide)
    (by decide) (by decide) (by decide)).1

theorem update_customer_eq (rows : Sheet) (old new : Customer) (h : Nat)
    (hh : findHeaderRow rows = some h) :
    update_customer rows old new =
      match findMatchIdx (rows.getD h []) (searchKey old) rows h with
      | none => (false, rows)
      | some j =>
        (true, rows.set j (overwriteRow (rows.getD h []) new (rows.getD j []))) := by
  unfold update_customer
  rw [hh]

theorem delete_customer_eq (rows : Sheet) (r : Customer) (h : Nat)
    (hh : findHeaderRow rows = some h) :
    delete_customer rows r =
      match findMatchIdx (rows.getD h []) (searchKey r) rows h with
      | none => (false, rows)
      | some j => (true, rows.eraseIdx j) := by
  unfold delete_customer
  rw [hh]

/-! Claim C3: update locates the first match and overwrites only mapped cells. -/

theorem getD_set_self {l : Sheet} {j : Nat} {x : Row} (h : j < l.length) :
    (l.set j x).getD j [] = x := by
  simp [List.getD_eq_getElem?_getD, List.getElem?_set_self h]

theorem getD_set_ne {l : Sheet} {j k : Nat} {x : Row} (h : j ≠ k) :
    (l.set j x).getD k [] = l.getD k [] := by
  simp [List.getD_eq_getElem?_getD, List.getElem?_set_ne h]

/-- C3: with a discovered header, `update(old, new)` overwrites exactly the
first data row below the header whose normalized (phone, name, address)
equals `old`'s — only its mapped columns receive `new`'s values, every other
row and every unmapped column of that row is unchanged — and returns False
(leaving the sheet untouched) when no row matches. -/
theorem c3_update_frame (rows : Sheet) (old new : Customer) (h : Nat)
    (hh : findHeaderRow rows = some h) :
    (findMatchIdx (rows.getD h []) (searchKey old) rows h = none →
        update_customer rows old new = (false, rows)) ∧
      ∀ j, findMatchIdx (rows.getD h []) (searchKey old) rows h = some j →
        (update_customer rows old new).fst = true ∧
        h < j ∧ j < rows.length ∧
        rowKey (rows.getD h []) (rows.getD j []) = some (searchKey old) ∧
        (∀ k, k < rows.length → h < k → k < j →
          rowKey (rows.getD h []) (rows.getD k []) ≠ some (searchKey old)) ∧
        (∀ k, k ≠ j →
          (update_customer rows old new).snd.getD k [] = rows.getD k []) ∧
        (∀ i, (∀ n ∈ headerNames, colIndex n (rows.getD h []) ≠ some i) →
          ((update_customer rows old new).snd.getD j []).getD i none =
            (rows.getD j []).getD i none) ∧
        (∀ n i, n ∈ headerNames → colIndex n (rows.getD h []) = some i →
          i < (rows.getD j []).length →
          ((update_customer rows old new).snd.getD j []).getD i none =
            some (new.fieldFor n)) := by
  constructor
  · intro hnone
    rw [update_customer_eq rows old new h hh, hnone]
  · intro j hj
    have hspec := findMatchIdx_spec (rows.getD h []) (searchKey old) rows h j hj
    have hupd : update_customer rows old new =
        (true, rows.set j (overwriteRow (rows.getD h []) new (rows.getD j []))) := by
      rw [update_customer_eq rows old new h hh, hj]
    have hjl : j < rows.length := hspec.2.1
    have hsetj : (update_customer rows old new).snd.getD j [] =
        overwriteRow (rows.getD h []) new (rows.getD j []) := by
      rw [hupd]
      exact getD_set_self hjl
    refine ⟨by rw [hupd], hspec.1, hjl, hspec.2.2.1, hspec.2.2.2, ?_, ?_, ?_⟩
    · intro k hk
      rw [hupd]
      exact getD_set_ne (Ne.symm hk)
    · intro i hi
      rw [hsetj]
      exact overwriteRow_getD_unmapped new _ hi
    · intro n i hn hi hlt
      rw [hsetj]
      exact overwriteRow_getD_mapped new _ hn hi hlt

/-- Witness for `c3_update_frame`: updating the sample sheet's only record
succeeds and leaves the header row (index 0) unchanged. -/
theorem c3_update_frame_witness :
    (update_customer wRows wCust wAbsent).fst = true ∧
      (update_customer wRows wCust wAbsent).snd.getD 0 [] = wRows.getD 0 [] :=
  ⟨(((c3_update_frame wRows wCust wAbsent 0 (by decide)).2 1 (by decide))).1,
   (((c3_update_frame wRows wCust wAbsent 0 (by decide)).2 1 (by decide))).2.2.2.2.2.1 0
     (by decide)⟩

/-! Claim C9: update/delete are no-ops when no row matches. -/

/-- C9: when no data row's normalized key equals the given record's key (in
particular also when the header row is absent), `update` and `delete` return
False and leave the sheet exactly as it was — the store performs no write at
all. -/
theorem c9_no_match_atomic (rows : Sheet) (old new r : Customer) :
    (findHeaderRow rows = none →
        update_customer rows old new = (false, rows) ∧
        delete_customer rows r = (false, rows)) ∧
      ∀ h, findHeaderRow rows = some h →
        (∀ j, j < rows.length → h < j →
          rowKey (rows.getD h []) (rows.getD j []) ≠ some (searchKey old)) →
        (∀ j, j < rows.length → h < j →
          rowKey (rows.getD h []) (rows.getD j []) ≠ some (searchKey r)) →
        update_customer rows old new = (false, rows) ∧
          delete_customer rows r = (false, rows) := by
  constructor
  · intro hnone
    constructor
    · unfold update_customer
      rw [hnone]
    · unfold delete_customer
      rw [hnone]
  · intro h hh hu hd
    constructor
    · rw [update_customer_eq rows old new h hh,
        (findMatchIdx_eq_none_iff _ _ rows h).mpr hu]
    · rw [delete_customer_eq rows r h hh,
        (findMatchIdx_eq_none_iff _ _ rows h).mpr hd]

/-- Witness for `c9_no_match_atomic`: a record absent from the sample sheet. -/
theorem c9_no_match_atomic_witness :
    update_customer wRows wAbsent wCust = (false, wRows) ∧
      delete_customer wRows wAbsent = (false, wRows) := by
  have hlen : List.length wRows = 2 := by decide
  have h1 : ∀ j, j < List.length wRows → 0 < j →
      rowKey (List.getD wRows 0 []) (List.getD wRows j []) ≠ some (searchKey wAbsent) := by
    intro j hj h0
    have hj1 : j = 1 := by omega
    subst hj1
    decide
  exact (c9_no_match_atomic wRows wAbsent wCust wAbsent).2 0 (by decide) h1 h1

/-! Claim C4: delete. -/

theorem getD_eraseIdx_lt {l : Sheet} {j k : Nat} (h : k < j) :
    (l.eraseIdx j).getD k [] = l.getD k [] := by
  simp [List.getD_eq_getElem?_getD, List.getElem?_eraseIdx_of_lt l j k h]

theorem drop_eraseIdx {l : Sheet} {h j : Nat} (hj : h + 1 ≤ j) (hl : j < l.length) :
    (l.eraseIdx j).drop (h + 1) = (l.drop (h + 1)).eraseIdx (j - (h + 1)) := by
  rw [List.eraseIdx_eq_take_drop_succ l j,
    List.eraseIdx_eq_take_drop_succ (l.drop (h + 1)) (j - (h + 1))]
  rw [List.drop_append_of_le_length]
  · rw [List.drop_take, List.drop_drop]
    congr 2
    omega
  · rw [List.length_take]
    omega

theorem filterMap_eraseIdx_length {f : Row → Option Customer} {l : List Row} {d : Nat}
    (hd : d < l.length) (hsome : (f (l.getD d [])).isSome = true) :
    ((l.eraseIdx d).filterMap f).length + 1 = (l.filterMap f).length := by
  obtain ⟨c, hc⟩ := Option.isSome_iff_exists.mp hsome
  have hgd : l.getD d [] = l[d] := by
    simp [List.getD_eq_getElem?_getD, List.getElem?_eq_getElem hd]
  have hsplit : l = l.take d ++ (l.getD d [] :: l.drop (d + 1)) := by
    conv_lhs => rw [← List.take_append_drop d l]
    rw [List.drop_eq_getElem_cons hd, hgd]
  rw [List.eraseIdx_eq_take_drop_succ]
  conv_rhs => rw [hsplit]
  rw [List.filterMap_append, List.filterMap_append, List.length_append,
    List.length_append, List.filterMap_cons, hc]
  simp only [List.length_cons]
  omega

theorem rowKey_eq_some_elim {hdr row : Row} {k : Str × Str × Str}
    (h : rowKey hdr row = some k) :
    ∃ p n a, requiredCell hdr row phoneHeader = some p ∧
      requiredCell hdr row nameHeader = some n ∧
      requiredCell hdr row addressHeader = some a ∧
      k = (cleanVal p, cleanVal n, cleanVal a) := by
  unfold rowKey at h
  rcases hp : requiredCell hdr row phoneHeader with _ | p <;>
    rcases hn : requiredCell hdr row nameHeader with _ | n <;>
      rcases ha : requiredCell hdr row addressHeader with _ | a <;>
        rw [hp, hn, ha] at h
  case none.none.none => exact Option.noConfusion h
  case none.none.some => exact Option.noConfusion h
  case none.some.none => exact Option.noConfusion h
  case none.some.some => exact Option.noConfusion h
  case some.none.none => exact Option.noConfusion h
  case some.none.some => exact Option.noConfusion h
  case some.some.none => exact Option.noConfusion h
  exact ⟨p, n, a, rfl, rfl, rfl, (Option.some.inj h).symm⟩

/-- C4 (counterexample): with two identical data rows, `delete` returns True
and removes only the first match, so the subsequent `load` (here the single
remaining record) still contains a record whose normalized key equals the
deleted record's key. -/
theorem c4_delete_duplicate_cex :
    (delete_customer [wHdr, wRow1, wRow1] wCust).fst = true ∧
      load_customers (delete_customer [wHdr, wRow1, wRow1] wCust).snd = [wCust] ∧
      searchKey wCust = searchKey wCust := by
  decide

/-- C4 (amended): if `delete(r)` returns True, the matched row was the unique
data row whose normalized key equals `r`'s, and `r`'s cleaned key fields are
non-blank, then the subsequent `load` contains no record with `r`'s key, the
record count decreases by exactly 1, and the sheet loses exactly the matched
row (remaining rows re-indexed with no gaps). -/
theorem c4_delete_unique (rows : Sheet) (r : Customer) (h j : Nat)
    (hh : findHeaderRow rows = some h)
    (hjh : h < j) (hjl : j < rows.length)
    (hkey : rowKey (rows.getD h []) (rows.getD j []) = some (searchKey r))
    (huniq : ∀ k, k < rows.length → h < k → k ≠ j →
      rowKey (rows.getD h []) (rows.getD k []) ≠ some (searchKey r))
    (hpb : pyStrip r.phone ≠ []) (hnb : pyStrip r.customer_name ≠ [])
    (hab : pyStrip r.address ≠ []) :
    delete_customer rows r = (true, rows.eraseIdx j) ∧
      (∀ c ∈ load_customers (rows.eraseIdx j), searchKey c ≠ searchKey r) ∧
      (load_customers (rows.eraseIdx j)).length + 1 = (load_customers rows).length ∧
      (rows.eraseIdx j).length + 1 = rows.length := by
  set hdr := rows.getD h [] with hhdr
  have hmatch : findMatchIdx hdr (searchKey r) rows h = some j := by
    apply findMatchIdx_eq_some_of hdr (searchKey r) rows h j hjh hjl hkey
    intro k hk hhk hkj
    exact huniq k hk hhk (by omega)
  have hdel : delete_customer rows r = (true, rows.eraseIdx j) := by
    rw [delete_customer_eq rows r h hh, hmatch]
  have hlen' : (rows.eraseIdx j).length = rows.length - 1 :=
    List.length_eraseIdx_of_lt hjl
  have hstable : findHeaderRow (rows.eraseIdx j) = some h := by
    apply findHeaderRow_stable hh
    · omega
    · intro k hk
      exact getD_eraseIdx_lt (by omega)
  have hhdr2 : (rows.eraseIdx j).getD h [] = hdr := getD_eraseIdx_lt hjh
  have hload' : load_customers (rows.eraseIdx j) =
      ((rows.drop (h + 1)).eraseIdx (j - (h + 1))).filterMap (parseRow hdr) := by
    rw [load_customers_eq hstable, hhdr2, drop_eraseIdx (by omega) hjl]
  have hloadr : load_customers rows = (rows.drop (h + 1)).filterMap (parseRow hdr) :=
    load_customers_eq hh
  have hgetd : (rows.drop (h + 1)).getD (j - (h + 1)) [] = rows.getD j [] := by
    rw [getD_drop]
    congr 1
    omega
  have hdlen : j - (h + 1) < (rows.drop (h + 1)).length := by
    rw [List.length_drop]
    omega
  obtain ⟨p, n, a, hcp, hcn, hca, hkdef⟩ := rowKey_eq_some_elim hkey
  have hskey : searchKey r = (cleanVal r.phone, cleanVal r.customer_name,
      cleanVal r.address) := searchKey_eq r
  have hmsome : (parseRow hdr (rows.getD j [])).isSome = true := by
    rw [parseRow_isSome_iff]
    have h3 : (cleanVal p, cleanVal n, cleanVal a) = (cleanVal r.phone,
        cleanVal r.customer_name, cleanVal r.address) := by
      rw [← hkdef, ← hskey]
    have hp3 := congrArg Prod.fst h3
    have hn3 := congrArg (fun t => t.snd.fst) h3
    have ha3 := congrArg (fun t => t.snd.snd) h3
    simp only at hp3 hn3 ha3
    refine ⟨⟨p, hcp, ?_⟩, ⟨n, hcn, ?_⟩, ⟨a, hca, ?_⟩⟩
    · rw [hp3, Ne, cleanVal_eq_nil_iff]
      exact hpb
    · rw [hn3, Ne, cleanVal_eq_nil_iff]
      exact hnb
    · rw [ha3, Ne, cleanVal_eq_nil_iff]
      exact hab
  refine ⟨hdel, ?_, ?_, by omega⟩
  · intro c hc
    rw [hload', List.mem_filterMap] at hc
    obtain ⟨row, hrowmem, hrowparse⟩ := hc
    obtain ⟨d, hd⟩ := List.getElem?_of_mem hrowmem
    rw [List.getElem?_eraseIdx] at hd
    intro hckey
    have hprops := parseRow_some_props hrowparse
    have hrowkey : rowKey hdr row = some (searchKey r) := by
      rw [hprops.1, ← hprops.2.1, hckey]
    by_cases hdd : d < j - (h + 1)
    · rw [if_pos hdd] at hd
      have hdl : h + 1 + d < rows.length := by
        have := (List.getElem?_eq_some.mp ((List.getElem?_drop rows (h + 1) d).symm.trans hd)).1
        omega
      have hrowd : rows.getD (h + 1 + d) [] = row := by
        have := (List.getElem?_drop rows (h + 1) d).symm.trans hd
        simp [List.getD_eq_getElem?_getD, this]
      exact huniq (h + 1 + d) hdl (by omega) (by omega) (hrowd ▸ hrowkey)
    · rw [if_neg hdd] at hd
      have hdl : h + 1 + (d + 1) < rows.length := by
        have := (List.getElem?_eq_some.mp
          ((List.getElem?_drop rows (h + 1) (d + 1)).symm.trans hd)).1
        omega
      have hrowd : rows.getD (h + 1 + (d + 1)) [] = row := by
        have := (List.getElem?_drop rows (h + 1) (d + 1)).symm.trans hd
        simp [List.getD_eq_getElem?_getD, this]
      exact huniq (h + 1 + (d + 1)) hdl (by omega) (by omega) (hrowd ▸ hrowkey)
  · rw [hload', hloadr]
    apply filterMap_eraseIdx_length hdlen
    rw [hgetd]
    exact hmsome

/-- Witness for `c4_delete_unique`: deleting the sample sheet's only record. -/
theorem c4_delete_unique_witness :
    delete_customer wRows wCust = (true, wRows.eraseIdx 1) ∧
      (load_customers (wRows.eraseIdx 1)).length + 1 = (load_customers wRows).length := by
  have hlen : List.length wRows = 2 := by decide
  have huniq : ∀ k, k < List.length wRows → 0 < k → k ≠ 1 →
      rowKey (List.getD wRows 0 []) (List.getD wRows k []) ≠ some (searchKey wCust) := by
    intro k hk h0 hne
    omega
  have hmain := c4_delete_unique wRows wCust 0 1 (by decide) (by decide) (by decide)
    (by decide) huniq (by decide) (by decide) (by decide)
  exact ⟨hmain.1, hmain.2.2.1⟩

/-! Claim C5: search ranking. -/

theorem strLe_nil (t : Str) : strLe [] t = true := rfl

theorem strLe_total : ∀ (s t : Str), strLe s t = true ∨ strLe t s = true
  | [], _ => Or.inl rfl
  | _ :: _, [] => Or.inr rfl
  | a :: as, b :: bs => by
    simp only [strLe]
    rcases lt_trichotomy a b with hab | hab | hab
    · left
      rw [if_pos hab]
    · subst hab
      simp only [if_neg (lt_irrefl a)]
      exact strLe_total as bs
    · right
      rw [if_pos hab]

theorem strLe_trans : ∀ {s t u : Str},
    strLe s t = true → strLe t u = true → strLe s u = true
  | [], _, _, _, _ => rfl
  | _ :: _, [], _, h1, _ => by simp [strLe] at h1
  | _ :: _, _ :: _, [], _, h2 => by simp [strLe] at h2
  | a :: as, b :: bs, c :: cs, h1, h2 => by
    simp only [strLe] at h1 h2 ⊢
    by_cases hab : a < b
    · by_cases hbc : b < c
      · rw [if_pos (lt_trans hab hbc)]
      · have hcb : ¬ c < b := by
          intro hcb
          rw [if_neg hbc, if_pos hcb] at h2
          exact Bool.false_ne_true h2
        have hbc2 : b = c := le_antisymm (le_of_not_lt hcb) (le_of_not_lt hbc)
        rw [if_pos (hbc2 ▸ hab)]
    · have hba : ¬ b < a := by
        intro hba
        rw [if_neg hab, if_pos hba] at h1
        exact Bool.false_ne_true h1
      have hab2 : a = b := le_antisymm (le_of_not_lt hba) (le_of_not_lt hab)
      subst hab2
      rw [if_neg hab, if_neg hba] at h1
      by_cases hac : a < c
      · rw [if_pos hac]
      · by_cases hca : c < a
        · rw [if_neg hac, if_pos hca] at h2
          exact absurd h2 Bool.false_ne_true
        · rw [if_neg hac, if_neg hca] at h2 ⊢
          exact strLe_trans h1 h2

instance : IsTotal Customer nameLe :=
  ⟨fun a b => strLe_total (lowerName a) (lowerName b)⟩

instance : IsTrans Customer nameLe :=
  ⟨fun _ _ _ h1 h2 => strLe_trans h1 h2⟩

theorem searchBuckets_eq (ql : Str) (cs : List Customer) :
    searchBuckets ql cs = (cs.filter (isPrefixHit ql),
      cs.filter fun c => !isPrefixHit ql c && isSubstrHit ql c) := by
  induction cs with
  | nil => rfl
  | cons c cs ih =>
    show (let (e, p) := searchBuckets ql cs
      if isPrefixHit ql c then (c :: e, p)
      else if isSubstrHit ql c then (e, c :: p)
      else (e, p)) = _
    rw [ih]
    by_cases h1 : isPrefixHit ql c
    · simp [List.filter_cons, h1]
    · by_cases h2 : isSubstrHit ql c <;> simp [List.filter_cons, h1, h2]

/-- The three demo customers of the spec's ranking example. -/
def annSmith : Customer := ⟨[], "Ann Smith".data, [], [], "1 A St".data, [], []⟩

/-- Demo customer whose name contains `ann` inside a word. -/
def banningLee : Customer := ⟨[], "Banning Lee".data, [], [], "2 B St".data, [], []⟩

/-- Demo customer whose name contains the word `Ann` not at the start. -/
def carlaAnn : Customer := ⟨[], "Carla Ann".data, [], [], "3 C St".data, [], []⟩

/-- The demo record set of the spec's ranking example. -/
def demoCustomers : List Customer := [annSmith, banningLee, carlaAnn]

/-- Names of a customer list, in order. -/
def namesOf (l : List Customer) : List Str := l.map fun c => c.customer_name

/-- C5 (counterexample): on the spec's own example the code returns
`[Ann Smith, Banning Lee, Carla Ann]` — both substring matches are sorted
alphabetically, so `Banning Lee` precedes `Carla Ann`, contradicting the
claimed order `[Ann Smith, Carla Ann, Banning Lee]`. -/
theorem c5_ranking_order_cex :
    namesOf (search_customers demoCustomers "ann".data) =
      ["Ann Smith".data, "Banning Lee".data, "Carla Ann".data] ∧
      namesOf (search_customers demoCustomers "ann".data) ≠
        ["Ann Smith".data, "Carla Ann".data, "Banning Lee".data] := by
  decide

/-- C5 (amended): for a non-blank query the ranker partitions the records
into a name-prefix bucket and a substring bucket, sorts each bucket
case-insensitively by name, and concatenates prefix bucket before substring
bucket; on the example names with query `ann` the order is
`[Ann Smith, Banning Lee, Carla Ann]`. -/
theorem c5_search_ranking (cs : List Customer) (q : Str) :
    ((pyStrip q).isEmpty = false →
(search_customers cs q =
          sortCustomers (cs.filter (isPrefixHit (pyStrip (pyLower q)))) ++
            sortCustomers (cs.filter fun c =>
              !isPrefixHit (pyStrip (pyLower q)) c &&
                isSubstrHit (pyStrip (pyLower q)) c) ∧
        List.Sorted nameLe
          (sortCustomers (cs.filter (isPrefixHit (pyStrip (pyLower q))))) ∧
        List.Sorted nameLe
          (sortCustomers (cs.filter fun c =>
            !isPrefixHit (pyStrip (pyLower q)) c &&
              isSubstrHit (pyStrip (pyLower q)) c)))) ∧
      namesOf (search_customers demoCustomers "ann".data) =
        ["Ann Smith".data, "Banning Lee".data, "Carla Ann".data] := by
  constructor
  · intro hq
    refine ⟨?_, ?_, ?_⟩
    · unfold search_customers
      rw [if_neg (by rw [hq]; exact Bool.false_ne_true)]
      simp only [searchBuckets_eq]
    · exact List.sorted_insertionSort nameLe _
    · exact List.sorted_insertionSort nameLe _
  · decide

/-- Witness for `c5_search_ranking` at the demo inputs. -/
theorem c5_search_ranking_witness :
    search_customers demoCustomers "ann".data =
      sortCustomers (demoCustomers.filter
        (isPrefixHit (pyStrip (pyLower "ann".data)))) ++
        sortCustomers (demoCustomers.filter fun c =>
          !isPrefixHit (pyStrip (pyLower "ann".data)) c &&
            isSubstrHit (pyStrip (pyLower "ann".data)) c) :=
  ((c5_search_ranking demoCustomers "ann".data).1 (by decide)).1

/-! Claim C6: the facade cache is patched in place, not reloaded. -/

theorem patchFirst_of_not_mem {old new : Customer} : ∀ {cache : List Customer},
    (∀ d ∈ cache, ¬(d.phone = old.phone ∧ d.customer_name = old.customer_name ∧
      d.address = old.address)) →
    patchFirst old new cache = cache
  | [], _ => rfl
  | d :: ds, h => by
    unfold patchFirst
    rw [if_neg (h d (List.mem_cons_self d ds))]
    rw [patchFirst_of_not_mem fun e he => h e (List.mem_cons_of_mem d he)]

theorem removeFirst_of_not_mem {c : Customer} : ∀ {cache : List Customer},
    c ∉ cache → removeFirst c cache = cache
  | [], _ => rfl
  | d :: ds, h => by
    unfold removeFirst
    rw [if_neg fun he => h (by rw [← he]; exact List.mem_cons_self d ds)]
    rw [removeFirst_of_not_mem fun he => h (List.mem_cons_of_mem d he)]

/-- C6 (counterexample): after a successful facade add of a valid record with
an empty phone, the cached list holds the appended record but a full reload
from the store does not, so the cache differs from the reload. -/
theorem c6_cache_not_reload_cex :
    (ctrl_add wRows [wCust] [wCust] wEmptyPhone).fst = true ∧
      (ctrl_add wRows [wCust] [wCust] wEmptyPhone).snd.snd.fst =
        [wCust, wEmptyPhone] ∧
      load_customers (ctrl_add wRows [wCust] [wCust] wEmptyPhone).snd.fst = [wCust] ∧
      (ctrl_add wRows [wCust] [wCust] wEmptyPhone).snd.snd.fst ≠
        load_customers (ctrl_add wRows [wCust] [wCust] wEmptyPhone).snd.fst := by
  decide

/-- C6 (amended): after every successful mutating facade call the cached
record list is patched in place — add appends the record, update replaces the
first cache entry whose phone, name and address equal the old record's
(leaving the cache unchanged when none does), delete removes the first equal
entry (leaving the cache unchanged when absent) — and on failure the cache is
untouched; the cache is not rebuilt by a reload from the store. -/
theorem c6_facade_inplace (rows : Sheet) (cache filtered : List Customer)
    (old new c : Customer) :
    ((add_customer rows c).fst = true →
        (ctrl_add rows cache filtered c).snd.snd.fst = cache ++ [c]) ∧
      ((add_customer rows c).fst = false →
        (ctrl_add rows cache filtered c).snd.snd.fst = cache) ∧
      ((update_customer rows old new).fst = true →
        (ctrl_update rows cache filtered old new).snd.snd.fst =
          patchFirst old new cache) ∧
      ((update_customer rows old new).fst = false →
        (ctrl_update rows cache filtered old new).snd.snd.fst = cache) ∧
      ((delete_customer rows c).fst = true →
        (ctrl_delete rows cache filtered c).snd.snd.fst = removeFirst c cache) ∧
      ((delete_customer rows c).fst = false →
        (ctrl_delete rows cache filtered c).snd.snd.fst = cache) ∧
      ((∀ d ∈ cache, ¬(d.phone = old.phone ∧ d.customer_name = old.customer_name ∧
          d.address = old.address)) → patchFirst old new cache = cache) ∧
      (c ∉ cache → removeFirst c cache = cache) := by
  refine ⟨?_, ?_, ?_, ?_, ?_, ?_, ?_, ?_⟩
  · intro h
    simp [ctrl_add, h]
  · intro h
    simp [ctrl_add, h]
  · intro h
    simp [ctrl_update, h]
  · intro h
    simp [ctrl_update, h]
  · intro h
    simp [ctrl_delete, h]
  · intro h
    simp [ctrl_delete, h]
  · exact patchFirst_of_not_mem
  · exact removeFirst_of_not_mem

/-- Witness for `c6_facade_inplace`: a successful facade add appends to the
cache. -/
theorem c6_facade_inplace_witness :
    (ctrl_add wRows [] [] wCust).snd.snd.fst = [] ++ [wCust] :=
  (c6_facade_inplace wRows [] [] wCust wCust wCust).1 (by decide)

end DeliveryManager
